import Mathlib

/-!
Shallow embedding of `src/shard_map.rs` from the whirlwind repository: a
sharded concurrent hash map.  The sequential functional behaviour of the
operations is modelled here; `usize`/`u64` arithmetic is modelled on `Nat`
with explicit reduction modulo `2 ^ 64` where the machine width matters.

The per-shard table (a `hashbrown::HashTable` of `(key, value)` pairs) is
modelled as a list of pairs.  Its operations (`entry` upsert, `find`,
`find_entry`/remove, `clear`) are modelled by list recursion: an entry
matches a probe when its stored hash (which hashbrown maintains as the
hash of the stored key) equals the probe hash and the probed equality
closure accepts its key — exactly the condition examined by the source's
closures `|(k, _)| k == &key`.

Key equality is a parameter `keq : K → K → Bool` (modelling the key
type's `Eq`) and the map's hasher is a parameter `hasher : K → Nat`
(modelling `S::hash_one`, reduced mod `2 ^ 64` to a `u64`), so that keys
which are `Eq`-equal yet distinguishable objects are expressible.
-/

namespace Whirlwind

/-- The modulus of `u64` and (64-bit) `usize` arithmetic. -/
def U64 : Nat := 2 ^ 64

/-- Fuel-driven bit length: `bitLenAux fuel n` is the number of binary
digits of `n`, provided `n < 2 ^ fuel`. -/
def bitLenAux : Nat → Nat → Nat
  | 0, _ => 0
  | fuel + 1, n => if n = 0 then 0 else bitLenAux fuel (n / 2) + 1

/-- Bit length of a 64-bit value. -/
def bitLen (n : Nat) : Nat := bitLenAux 64 n

/-- Models `usize::leading_zeros` on a 64-bit platform. -/
def leading_zeros (n : Nat) : Nat := 64 - bitLen n

/-- Models `usize::next_power_of_two`: the least power of two that is
greater than or equal to `n` (with `next_power_of_two 0 = 1`, as in Rust).
Rust would overflow above `2 ^ 63`; this model keeps the mathematical
value, and theorems about `usize` inputs restrict the range as needed. -/
def next_power_of_two (n : Nat) : Nat :=
  if n ≤ 1 then 1 else 2 ^ bitLen (n - 1)

/-- The shard-index computation of `ShardMap::shard` (src/shard_map.rs,
lines 161–172): `k = (size_of(usize) * 8 - 1) - numShards.leading_zeros()`
and then `hash as usize & ((1 << k) - 1)`. -/
def shard_idx (numShards hash : Nat) : Nat :=
  hash % U64 &&& ((1 <<< (63 - leading_zeros numShards)) - 1)

/-- Models `hasher.hash_one(key)`: the hasher's 64-bit digest of a key. -/
def hash_one (hasher : K → Nat) (key : K) : Nat := hasher key % U64

/-- Models `HashTable::find(hash, |(k, _)| k == &key)`: the entry whose
stored hash equals the probe hash and whose key is `keq`-equal to the
probe key, if any. -/
def table_find (keq : K → K → Bool) (hasher : K → Nat) (hash : Nat) (key : K) :
    List (K × V) → Option (K × V)
  | [] => none
  | e :: es =>
    if hash_one hasher e.1 == hash && keq e.1 key then some e
    else table_find keq hasher hash key es

/-- Models the `entry(hash, eq, rehash)` upsert of `ShardMap::insert`
(src/shard_map.rs, lines 178–197): on an occupied entry, remove it and
insert the new `(key, value)` pair into the vacated slot, returning the
previous value; on a vacant entry, insert the new pair and return `none`. -/
def table_upsert (keq : K → K → Bool) (hasher : K → Nat) (hash : Nat) (key : K) (value : V) :
    List (K × V) → Option V × List (K × V)
  | [] => (none, [(key, value)])
  | e :: es =>
    if hash_one hasher e.1 == hash && keq e.1 key then
      (some e.2, (key, value) :: es)
    else
      let r := table_upsert keq hasher hash key value es
      (r.1, e :: r.2)

/-- Models `find_entry(hash, eq)` followed by `remove()` in
`ShardMap::remove` (src/shard_map.rs, lines 238–249): remove the matching
entry and return its value, or return `none` leaving the table unchanged. -/
def table_remove (keq : K → K → Bool) (hasher : K → Nat) (hash : Nat) (key : K) :
    List (K × V) → Option V × List (K × V)
  | [] => (none, [])
  | e :: es =>
    if hash_one hasher e.1 == hash && keq e.1 key then (some e.2, es)
    else
      let r := table_remove keq hasher hash key es
      (r.1, e :: r.2)

/-- The number of entries of a table matching a probe. -/
def match_count (keq : K → K → Bool) (hasher : K → Nat) (hash : Nat) (key : K)
    (t : List (K × V)) : Nat :=
  (t.filter (fun e => hash_one hasher e.1 == hash && keq e.1 key)).length

/-- The state of a `ShardMap`: the boxed slice of shards (each shard's
lock-protected table modelled by its contents) and the atomic `length`
counter. -/
structure ShardMap (K V : Type) where
  shards : List (List (K × V))
  length : Nat
  deriving DecidableEq, Repr

namespace ShardMap

/-- `self.inner.len()`: the number of shards (the `Deref` impl of `Inner`
forwards to the boxed slice of shards, not to the `length` counter). -/
def num_shards (m : ShardMap K V) : Nat := m.shards.length

/-- The shard at index `i` (the source uses `get_unchecked`, whose
in-bounds obligation is discharged separately). -/
def shardAt (m : ShardMap K V) (i : Nat) : List (K × V) := (m.shards.get? i).getD []

/-- Models `ShardMap::shard`: hash the key, derive the shard index. -/
def route (hasher : K → Nat) (m : ShardMap K V) (key : K) : Nat × Nat :=
  let hash := hash_one hasher key
  (shard_idx m.num_shards hash, hash)

/-- Models `ShardMap::get` (src/shard_map.rs, lines 200–212): the `MapRef`
is modelled by the borrowed `(key, value)` pair it exposes. -/
def get (keq : K → K → Bool) (hasher : K → Nat) (m : ShardMap K V) (key : K) :
    Option (K × V) :=
  let r := route hasher m key
  table_find keq hasher r.2 key (m.shardAt r.1)

/-- Models `ShardMap::contains_key`. -/
def contains_key (keq : K → K → Bool) (hasher : K → Nat) (m : ShardMap K V) (key : K) :
    Bool :=
  (get keq hasher m key).isSome

/-- Models `ShardMap::insert` (src/shard_map.rs, lines 174–198): upsert in
the routed shard; on a vacant entry the length counter is incremented
(`fetch_add(1)` on a `usize`), on an occupied entry it is untouched. -/
def insert (keq : K → K → Bool) (hasher : K → Nat) (m : ShardMap K V) (key : K) (value : V) :
    Option V × ShardMap K V :=
  let r := route hasher m key
  let res := table_upsert keq hasher r.2 key value (m.shardAt r.1)
  (res.1,
    { shards := m.shards.set r.1 res.2,
      length := if res.1.isSome then m.length else (m.length + 1) % U64 })

/-- Models `ShardMap::remove` (src/shard_map.rs, lines 235–250): remove
from the routed shard; iff an entry was removed, the length counter is
decremented (`fetch_sub(1)` on a `usize`, i.e. a wrapping decrement). -/
def remove (keq : K → K → Bool) (hasher : K → Nat) (m : ShardMap K V) (key : K) :
    Option V × ShardMap K V :=
  let r := route hasher m key
  let res := table_remove keq hasher r.2 key (m.shardAt r.1)
  (res.1,
    if res.1.isSome then
      { shards := m.shards.set r.1 res.2, length := (m.length + (U64 - 1)) % U64 }
    else m)

/-- Models `ShardMap::len`: a plain load of the counter. -/
def len (m : ShardMap K V) : Nat := m.length

/-- Models `ShardMap::is_empty`: `self.len() == 0`. -/
def is_empty (m : ShardMap K V) : Bool := m.len == 0

/-- Models `ShardMap::clear` (src/shard_map.rs, lines 260–264): every
shard's table is cleared, one at a time; the `length` counter is not
touched by the source. -/
def clear (m : ShardMap K V) : ShardMap K V :=
  { shards := m.shards.map (fun _ => []), length := m.length }

/-- Models `ShardMap::with_shards_and_hasher` (src/shard_map.rs, lines
130–143): `shards.next_power_of_two()` empty shards and a zero counter.
(The hasher is carried as an operation parameter in this embedding.) -/
def with_shards_and_hasher (K V : Type) (shards : Nat) : ShardMap K V :=
  { shards := List.replicate (next_power_of_two shards) [], length := 0 }

/-- The per-shard capacity computed by
`ShardMap::with_shards_and_capacity_and_hasher` (src/shard_map.rs, line
146): `(cap / shards + 1).next_power_of_two().min(4)`, where `shards` is
the raw requested count.  Two error paths are modelled by `none`: the
division panics when `shards` is zero, and when `cap / shards + 1`
exceeds `2 ^ 63` the `usize` computation overflows — either in
`next_power_of_two` or already in the `+ 1` — which panics in debug
builds (release builds wrap instead, also not producing the mathematical
`min(nextPowerOfTwo(cap / shards + 1), 4)`). -/
def per_shard_capacity (shards cap : Nat) : Option Nat :=
  if shards = 0 then none
  else if 2 ^ 63 < cap / shards + 1 then none
  else some (min (next_power_of_two (cap / shards + 1)) 4)

/-- Models `ShardMap::with_shards_and_capacity_and_hasher` (src/shard_map.rs,
lines 145–159): computes the per-shard capacity (panicking — `none` — when
the requested shard count is zero or the capacity computation overflows),
then builds `shards.next_power_of_two()` empty pre-sized shards.  The
capacity only pre-sizes the tables; it does not affect their contents. -/
def with_shards_and_capacity_and_hasher (K V : Type) (shards cap : Nat) :
    Option (ShardMap K V) :=
  match per_shard_capacity shards cap with
  | none => none
  | some _ => some { shards := List.replicate (next_power_of_two shards) [], length := 0 }

end ShardMap

/-- Models `calculate_shard_count` (src/shard_map.rs, lines 84–87):
`available_parallelism().map_or(1, usize::from) * 4`, rounded up to a
power of two.  `parallelism = none` models the error case of
`available_parallelism`. -/
def calculate_shard_count (parallelism : Option Nat) : Nat :=
  next_power_of_two (parallelism.getD 1 * 4)

/-- One call of `shard_count` (src/shard_map.rs, lines 89–93) against the
`OnceLock` cell's state: a cached value is returned as-is; an empty cell
is filled by `calculate_shard_count` first. -/
def shard_count_call (state : Option Nat) (parallelism : Option Nat) : Nat × Option Nat :=
  match state with
  | some v => (v, some v)
  | none =>
    let c := calculate_shard_count parallelism
    (c, some c)

/-- A sequence of `shard_count` calls within one process, threading the
`OnceLock` state; each call may observe a different `available_parallelism`
result. -/
def run_shard_count_calls (state : Option Nat) :
    List (Option Nat) → List Nat × Option Nat
  | [] => ([], state)
  | p :: ps =>
    let r := shard_count_call state p
    let rest := run_shard_count_calls r.2 ps
    (r.1 :: rest.1, rest.2)

/-- Key equality used for `Nat`-keyed demonstration maps. -/
def natEq (a b : Nat) : Bool := a == b

/-- Identity hasher used for `Nat`-keyed demonstration maps. -/
def natHash (n : Nat) : Nat := n

/-- Key equality on pairs comparing only the first component: models a key
type whose `Eq` ignores part of the key object. -/
def pairEq (a b : Nat × Nat) : Bool := a.1 == b.1

/-- Hasher on pairs hashing only the first component (consistent with
`pairEq`, as Rust's `Eq`/`Hash` contract requires). -/
def pairHash (a : Nat × Nat) : Nat := a.1

/-- A one-shard map over `Nat` holding the single entry `(0, 42)`. -/
def demoMap : ShardMap Nat Nat :=
  (ShardMap.insert natEq natHash (ShardMap.with_shards_and_hasher Nat Nat 1) 0 42).2

/-- A one-shard map over pair keys holding the single entry `((1, 0), 10)`. -/
def demoPairMap : ShardMap (Nat × Nat) Nat := { shards := [[((1, 0), 10)]], length := 1 }

theorem U64_eq : U64 = 2 ^ 64 := rfl

theorem bitLenAux_zero (fuel : Nat) : bitLenAux fuel 0 = 0 := by
  cases fuel <;> simp [bitLenAux]

theorem bitLenAux_spec :
    ∀ fuel n, 1 ≤ n → n < 2 ^ fuel →
      1 ≤ bitLenAux fuel n ∧ bitLenAux fuel n ≤ fuel ∧
        2 ^ (bitLenAux fuel n - 1) ≤ n ∧ n < 2 ^ bitLenAux fuel n := by
  intro fuel
  induction fuel with
  | zero =>
    intro n h1 h2
    simp at h2
    omega
  | succ f ih =>
    intro n h1 h2
    rw [bitLenAux, if_neg (by omega)]
    by_cases hn : n = 1
    · subst hn
      rw [bitLenAux_zero]
      refine ⟨by omega, by omega, by simp, by simp⟩
    · have h1' : 1 ≤ n / 2 := by omega
      have h2' : n / 2 < 2 ^ f := by
        rw [pow_succ] at h2
        omega
      obtain ⟨a, b, c, d⟩ := ih (n / 2) h1' h2'
      refine ⟨by omega, by omega, ?_, ?_⟩
      · have hsplit : 2 ^ bitLenAux f (n / 2) = 2 * 2 ^ (bitLenAux f (n / 2) - 1) := by
          conv_lhs => rw [show bitLenAux f (n / 2) = (bitLenAux f (n / 2) - 1) + 1 by omega]
          rw [pow_succ]
          ring
        simp only [Nat.add_sub_cancel]
        omega
      · rw [pow_succ]
        omega

theorem bitLen_spec (n : Nat) (h1 : 1 ≤ n) (h2 : n < 2 ^ 64) :
    1 ≤ bitLen n ∧ bitLen n ≤ 64 ∧ 2 ^ (bitLen n - 1) ≤ n ∧ n < 2 ^ bitLen n :=
  bitLenAux_spec 64 n h1 h2

theorem bitLen_pow (m : Nat) (hm : m ≤ 63) : bitLen (2 ^ m) = m + 1 := by
  have hlt : (2 : Nat) ^ m < 2 ^ 64 :=
    Nat.pow_lt_pow_right (by norm_num) (by omega)
  obtain ⟨a, b, c, d⟩ := bitLen_spec (2 ^ m) Nat.one_le_two_pow hlt
  have h1 : bitLen (2 ^ m) - 1 ≤ m := (Nat.pow_le_pow_iff_right (by norm_num)).mp c
  have h2 : m < bitLen (2 ^ m) := (Nat.pow_lt_pow_iff_right (by norm_num)).mp d
  omega

theorem shard_idx_lt (n hash : Nat) (h1 : 1 ≤ n) (h2 : n < U64) : shard_idx n hash < n := by
  obtain ⟨a, b, c, d⟩ := bitLen_spec n h1 (by rw [U64_eq] at h2; exact h2)
  unfold shard_idx leading_zeros
  rw [show 63 - (64 - bitLen n) = bitLen n - 1 by omega]
  rw [Nat.shiftLeft_eq, one_mul]
  have hpos : 1 ≤ 2 ^ (bitLen n - 1) := Nat.one_le_two_pow
  have hle : hash % U64 &&& (2 ^ (bitLen n - 1) - 1) ≤ 2 ^ (bitLen n - 1) - 1 :=
    Nat.and_le_right
  omega

theorem next_power_of_two_is_pow (n : Nat) : ∃ k, next_power_of_two n = 2 ^ k := by
  unfold next_power_of_two
  split
  · exact ⟨0, rfl⟩
  · exact ⟨bitLen (n - 1), rfl⟩

theorem next_power_of_two_pos (n : Nat) : 1 ≤ next_power_of_two n := by
  obtain ⟨k, hk⟩ := next_power_of_two_is_pow n
  rw [hk]
  exact Nat.one_le_two_pow

theorem le_next_power_of_two (n : Nat) (h : n ≤ 2 ^ 64) : n ≤ next_power_of_two n := by
  unfold next_power_of_two
  split
  · omega
  · rename_i hn
    have h64 : 1 ≤ (2 : Nat) ^ 64 := Nat.one_le_two_pow
    obtain ⟨a, b, c, d⟩ := bitLen_spec (n - 1) (by omega) (by omega)
    omega

theorem next_power_of_two_le_of_le (s : Nat) (h : s ≤ 2 ^ 63) :
    next_power_of_two s ≤ 2 ^ 63 := by
  unfold next_power_of_two
  split
  · exact Nat.one_le_two_pow
  · rename_i hn
    have h63 : 1 ≤ (2 : Nat) ^ 63 := Nat.one_le_two_pow
    have hlt64 : (2 : Nat) ^ 63 < 2 ^ 64 := Nat.pow_lt_pow_right (by norm_num) (by omega)
    obtain ⟨a, b, c, d⟩ := bitLen_spec (s - 1) (by omega) (by omega)
    have hblt : 2 ^ (bitLen (s - 1) - 1) < 2 ^ 63 := by omega
    have hexp : bitLen (s - 1) - 1 < 63 := (Nat.pow_lt_pow_iff_right (by norm_num)).mp hblt
    exact Nat.pow_le_pow_right (by norm_num) (by omega)

theorem next_power_of_two_lt_U64 (s : Nat) (h : s ≤ 2 ^ 63) :
    next_power_of_two s < U64 := by
  have h1 := next_power_of_two_le_of_le s h
  have h2 : (2 : Nat) ^ 63 < 2 ^ 64 := Nat.pow_lt_pow_right (by norm_num) (by omega)
  rw [U64_eq]
  omega

/-- C3: for every 64-bit hash and every shard count that is a power of two
representable in `usize`, the leading-zero-count bit trick of
`ShardMap::shard` computes exactly `hash &&& (shardCount - 1)`: the two
computations are behaviorally identical under the power-of-two invariant. -/
theorem shard_idx_eq_mask (m hash : Nat) (hm : m ≤ 63) (hh : hash < U64) :
    shard_idx (2 ^ m) hash = hash &&& (2 ^ m - 1) := by
  unfold shard_idx leading_zeros
  rw [bitLen_pow m hm]
  rw [show 63 - (64 - (m + 1)) = m by omega]
  rw [Nat.mod_eq_of_lt hh, Nat.shiftLeft_eq, one_mul]

/-- Witness for C3 at shard count 8 and hash 29. -/
theorem shard_idx_eq_mask_witness : shard_idx (2 ^ 3) 29 = 29 &&& (2 ^ 3 - 1) :=
  shard_idx_eq_mask 3 29 (by decide) (by decide)

/-- C2 counterexample: at requested shard count 1 and capacity `2 ^ 63`,
line 146 does not compute `min(nextPowerOfTwo(cap / s + 1), 4) = 4`: the
`usize` computation `(2 ^ 63 + 1).next_power_of_two()` overflows (a panic
in debug builds; release builds wrap to 0), modelled as `none`, so the
claim's formula fails at this concrete input. -/
theorem per_shard_capacity_overflow_at_large_cap :
    ShardMap.per_shard_capacity 1 (2 ^ 63) = none
    ∧ ShardMap.per_shard_capacity 1 (2 ^ 63)
        ≠ some (min (next_power_of_two (2 ^ 63 / 1 + 1)) 4) := by decide

/-- C2 amended: for every requested total capacity `cap` and shard count
`s ≥ 1` in the range where line 146's `usize` arithmetic does not
overflow (`cap / s + 1 ≤ 2 ^ 63`), the per-shard table capacity computed
by `with_shards_and_capacity_and_hasher` is
`min(nextPowerOfTwo(cap / s + 1), 4)`, and it never exceeds 4: the
formula clamps at the small constant instead of scaling up with the
requested total.  Beyond that range the computation overflows (debug
panic / release wrap) and produces no such capacity. -/
theorem per_shard_capacity_spec (s cap : Nat) (hs : 0 < s)
    (hcap : cap / s + 1 ≤ 2 ^ 63) :
    ShardMap.per_shard_capacity s cap
        = some (min (next_power_of_two (cap / s + 1)) 4)
      ∧ ∀ c, ShardMap.per_shard_capacity s cap = some c → c ≤ 4 := by
  have h1 : ShardMap.per_shard_capacity s cap
      = some (min (next_power_of_two (cap / s + 1)) 4) := by
    unfold ShardMap.per_shard_capacity
    rw [if_neg (by omega), if_neg (by omega)]
  refine ⟨h1, ?_⟩
  intro c hc
  rw [h1] at hc
  have : c = min (next_power_of_two (cap / s + 1)) 4 :=
    (Option.some.injEq _ _).mp hc.symm
  omega

/-- Witness for C2's amended statement at shard count 2 and a large (but
non-overflowing) requested capacity. -/
theorem per_shard_capacity_spec_witness :
    ShardMap.per_shard_capacity 2 1000000
        = some (min (next_power_of_two (1000000 / 2 + 1)) 4)
      ∧ ∀ c, ShardMap.per_shard_capacity 2 1000000 = some c → c ≤ 4 :=
  per_shard_capacity_spec 2 1000000 (by decide) (by decide)

/-- C7 counterexample: requesting 0 shards together with a capacity makes
`with_shards_and_capacity_and_hasher` divide by zero in the per-shard
capacity computation (a panic in Rust, modelled as `none`): no shard array
is built and no coercion to a power of two happens, refuting the claim
that every shard-count-accepting constructor coerces every requested
count, including 0. -/
theorem with_capacity_zero_shards_builds_no_map :
    ShardMap.with_shards_and_capacity_and_hasher Nat Nat 0 10 = none := rfl

/-- C7 amended: for every requested shard count in `usize`'s
non-overflowing range (`s ≤ 2 ^ 63`, beyond which Rust's
`next_power_of_two` itself panics in debug builds and wraps in release,
so no shard array is built), `with_shards_and_hasher` (and the
constructors delegating to it) coerces the request — including 0 — to
`next_power_of_two` of the request, a power of two at least as large as
the request; `with_shards_and_capacity_and_hasher` does the same for
every requested shard count of at least 1 whose capacity keeps
`cap / s + 1 ≤ 2 ^ 63` (otherwise the per-shard capacity computation on
line 146 overflows before the shard array is built), but on requested
count 0 it panics by dividing by zero before any coercion happens. -/
theorem constructors_shard_count_power_of_two (K V : Type) (s cap : Nat)
    (hs : s ≤ 2 ^ 63) :
    ((ShardMap.with_shards_and_hasher K V s).num_shards = next_power_of_two s
      ∧ (∃ k, (ShardMap.with_shards_and_hasher K V s).num_shards = 2 ^ k)
      ∧ s ≤ (ShardMap.with_shards_and_hasher K V s).num_shards)
    ∧ (0 < s → cap / s + 1 ≤ 2 ^ 63 →
        ∃ m0, ShardMap.with_shards_and_capacity_and_hasher K V s cap = some m0
          ∧ m0.num_shards = next_power_of_two s ∧ ∃ k, m0.num_shards = 2 ^ k) := by
  have hnum : (ShardMap.with_shards_and_hasher K V s).num_shards = next_power_of_two s := by
    simp [ShardMap.with_shards_and_hasher, ShardMap.num_shards]
  refine ⟨⟨hnum, ?_, ?_⟩, ?_⟩
  · rw [hnum]
    exact next_power_of_two_is_pow s
  · rw [hnum]
    have h6364 : (2 : Nat) ^ 63 ≤ 2 ^ 64 := Nat.pow_le_pow_right (by norm_num) (by omega)
    exact le_next_power_of_two s (by omega)
  · intro hpos hcap
    refine ⟨{ shards := List.replicate (next_power_of_two s) [], length := 0 }, ?_, ?_, ?_⟩
    · unfold ShardMap.with_shards_and_capacity_and_hasher ShardMap.per_shard_capacity
      rw [if_neg (by omega), if_neg (by omega)]
    · simp [ShardMap.num_shards]
    · simp only [ShardMap.num_shards, List.length_replicate]
      exact next_power_of_two_is_pow s

/-- Witness for C7's amended statement at requested shard count 5 and
capacity 100 (the result has 8 shards). -/
theorem constructors_shard_count_power_of_two_witness :
    ((ShardMap.with_shards_and_hasher Nat Nat 5).num_shards = next_power_of_two 5
      ∧ (∃ k, (ShardMap.with_shards_and_hasher Nat Nat 5).num_shards = 2 ^ k)
      ∧ 5 ≤ (ShardMap.with_shards_and_hasher Nat Nat 5).num_shards)
    ∧ (0 < 5 → 100 / 5 + 1 ≤ 2 ^ 63 →
        ∃ m0, ShardMap.with_shards_and_capacity_and_hasher Nat Nat 5 100 = some m0
          ∧ m0.num_shards = next_power_of_two 5 ∧ ∃ k, m0.num_shards = 2 ^ k) :=
  constructors_shard_count_power_of_two Nat Nat 5 100 (by decide)

/-- C9: for every map built by a shard-count-accepting public constructor
and every key, the shard index computed by `ShardMap::shard` is strictly
less than the number of shards, so the `get_unchecked` slice access is
always in bounds. -/
theorem shard_index_in_bounds (K V : Type) (s cap : Nat) (hasher : K → Nat) (key : K)
    (hs : s ≤ 2 ^ 63) :
    (shard_idx (ShardMap.with_shards_and_hasher K V s).num_shards (hash_one hasher key)
        < (ShardMap.with_shards_and_hasher K V s).num_shards)
    ∧ (∀ m0, ShardMap.with_shards_and_capacity_and_hasher K V s cap = some m0 →
        shard_idx m0.num_shards (hash_one hasher key) < m0.num_shards) := by
  have hlt : ∀ n, n = next_power_of_two s → shard_idx n (hash_one hasher key) < n := by
    intro n hn
    subst hn
    exact shard_idx_lt _ _ (next_power_of_two_pos s) (next_power_of_two_lt_U64 s hs)
  constructor
  · exact hlt _ (by simp [ShardMap.with_shards_and_hasher, ShardMap.num_shards])
  · intro m0 hm0
    unfold ShardMap.with_shards_and_capacity_and_hasher ShardMap.per_shard_capacity at hm0
    by_cases hz : s = 0
    · rw [if_pos hz] at hm0
      exact absurd hm0 (by simp)
    · rw [if_neg hz] at hm0
      by_cases hov : 2 ^ 63 < cap / s + 1
      · rw [if_pos hov] at hm0
        exact absurd hm0 (by simp)
      · rw [if_neg hov] at hm0
        simp only [Option.some.injEq] at hm0
        refine hlt _ ?_
        rw [← hm0]
        simp [ShardMap.num_shards]

/-- Witness for C9 at 5 requested shards, the identity hasher and key 3. -/
theorem shard_index_in_bounds_witness :
    (shard_idx (ShardMap.with_shards_and_hasher Nat Nat 5).num_shards (hash_one natHash 3)
        < (ShardMap.with_shards_and_hasher Nat Nat 5).num_shards)
    ∧ (∀ m0, ShardMap.with_shards_and_capacity_and_hasher Nat Nat 5 100 = some m0 →
        shard_idx m0.num_shards (hash_one natHash 3) < m0.num_shards) :=
  shard_index_in_bounds Nat Nat 5 100 natHash 3 (by decide)

theorem table_upsert_fst (keq : K → K → Bool) (hasher : K → Nat) (hash : Nat) (key : K)
    (value : V) (t : List (K × V)) :
    (table_upsert keq hasher hash key value t).1
      = (table_find keq hasher hash key t).map Prod.snd := by
  induction t with
  | nil => rfl
  | cons e es ih =>
    by_cases h : (hash_one hasher e.1 == hash && keq e.1 key) = true
    · simp [table_upsert, table_find, h]
    · simp [table_upsert, table_find, h, ih]

theorem table_remove_fst (keq : K → K → Bool) (hasher : K → Nat) (hash : Nat) (key : K)
    (t : List (K × V)) :
    (table_remove keq hasher hash key t).1
      = (table_find keq hasher hash key t).map Prod.snd := by
  induction t with
  | nil => rfl
  | cons e es ih =>
    by_cases h : (hash_one hasher e.1 == hash && keq e.1 key) = true
    · simp [table_remove, table_find, h]
    · simp [table_remove, table_find, h, ih]

/-- C4: `insert` returns exactly the previously-stored value for the key
(`some` when an equal key was present, `none` otherwise), it leaves the
length counter unchanged when the key was present, and it increments the
counter by 1 when the key was absent.  The hypothesis keeps the counter
below `usize::MAX`, where `fetch_add(1)` would wrap; a live counter can
never get there, as each increment is tied to a distinct live entry. -/
theorem insert_spec (K V : Type) (keq : K → K → Bool) (hasher : K → Nat)
    (m : ShardMap K V) (key : K) (value : V) (hlen : m.length + 1 < U64) :
    ((ShardMap.insert keq hasher m key value).1
        = (ShardMap.get keq hasher m key).map Prod.snd)
    ∧ ((ShardMap.get keq hasher m key).isSome = true →
        (ShardMap.insert keq hasher m key value).2.length = m.length)
    ∧ (ShardMap.get keq hasher m key = none →
        (ShardMap.insert keq hasher m key value).2.length = m.length + 1) := by
  have hf := table_upsert_fst keq hasher (ShardMap.route hasher m key).2 key value
    (m.shardAt (ShardMap.route hasher m key).1)
  refine ⟨?_, ?_, ?_⟩
  · simp only [ShardMap.insert, ShardMap.get]
    exact hf
  · intro hsome
    simp only [ShardMap.get] at hsome
    simp only [ShardMap.insert, hf]
    rw [if_pos (by simpa using hsome)]
  · intro hnone
    simp only [ShardMap.get] at hnone
    simp only [ShardMap.insert, hf]
    rw [if_neg (by simp [hnone])]
    exact Nat.mod_eq_of_lt hlen

/-- Witness for C4: replacing the present key 0 keeps the length at 1;
inserting into an empty one-shard map yields length 1. -/
theorem insert_spec_witness :
    (ShardMap.insert natEq natHash demoMap 0 7).2.length = 1
    ∧ (ShardMap.insert natEq natHash (ShardMap.with_shards_and_hasher Nat Nat 1) 0 7).2.length
        = 1 := by
  have h1 := insert_spec Nat Nat natEq natHash demoMap 0 7 (by decide)
  have h2 := insert_spec Nat Nat natEq natHash (ShardMap.with_shards_and_hasher Nat Nat 1) 0 7
    (by decide)
  refine ⟨?_, ?_⟩
  · rw [h1.2.1 (by decide)]
    decide
  · rw [h2.2.2 (by decide)]
    decide

/-- C5: `remove` returns `some` of the stored value and decrements the
length counter by 1 iff an entry with an equal key was present; on an
absent key it is a no-op returning `none` (an ordinary non-error outcome)
with the whole map, counter included, unchanged.  The positivity
hypothesis on the counter reflects every reachable state: the counter is
only incremented by successful inserts and only decremented by successful
removes, so it is at least the number of live entries, and a present
entry forces it above zero (`fetch_sub(1)` would otherwise wrap). -/
theorem remove_spec (K V : Type) (keq : K → K → Bool) (hasher : K → Nat)
    (m : ShardMap K V) (key : K) (hlen : m.length < U64) :
    (ShardMap.get keq hasher m key = none →
      ShardMap.remove keq hasher m key = (none, m))
    ∧ (∀ e, ShardMap.get keq hasher m key = some e → 0 < m.length →
        (ShardMap.remove keq hasher m key).1 = some e.2
        ∧ (ShardMap.remove keq hasher m key).2.length = m.length - 1) := by
  have hf := table_remove_fst keq hasher (ShardMap.route hasher m key).2 key
    (m.shardAt (ShardMap.route hasher m key).1)
  have hU : U64 = 18446744073709551616 := by norm_num [U64]
  refine ⟨?_, ?_⟩
  · intro hnone
    simp only [ShardMap.get] at hnone
    simp [ShardMap.remove, hf, hnone]
  · intro e hsome hpos
    simp only [ShardMap.get] at hsome
    constructor
    · simp [ShardMap.remove, hf, hsome]
    · simp [ShardMap.remove, hf, hsome]
      rw [hU] at hlen ⊢
      omega

/-- Witness for C5: removing the present key 0 from the one-entry map
returns its value 42 and drops the counter to 0. -/
theorem remove_spec_witness :
    (ShardMap.remove natEq natHash demoMap 0).1 = some 42
    ∧ (ShardMap.remove natEq natHash demoMap 0).2.length = 0 := by
  have h := (remove_spec Nat Nat natEq natHash demoMap 0 (by decide)).2 (0, 42)
    (by decide) (by decide)
  exact ⟨h.1, h.2⟩

theorem table_find_upsert_self (keq : K → K → Bool) (hasher : K → Nat) (key : K) (value : V)
    (hrefl : keq key key = true) (t : List (K × V)) :
    table_find keq hasher (hash_one hasher key) key
      (table_upsert keq hasher (hash_one hasher key) key value t).2 = some (key, value) := by
  induction t with
  | nil => simp [table_upsert, table_find, hrefl]
  | cons e es ih =>
    by_cases h : (hash_one hasher e.1 == hash_one hasher key && keq e.1 key) = true
    · simp [table_upsert, table_find, h, hrefl]
    · simp [table_upsert, table_find, h, ih]

theorem table_find_eq_none_of_match_count_zero (keq : K → K → Bool) (hasher : K → Nat)
    (hash : Nat) (key : K) (t : List (K × V))
    (h : match_count keq hasher hash key t = 0) :
    table_find keq hasher hash key t = none := by
  induction t with
  | nil => rfl
  | cons e es ih =>
    by_cases hc : (hash_one hasher e.1 == hash && keq e.1 key) = true
    · exfalso
      simp [match_count, List.filter_cons, hc] at h
    · simp only [table_find, hc, if_false, Bool.false_eq_true]
      exact ih (by simpa [match_count, List.filter_cons, hc] using h)

theorem match_count_upsert_le_one (keq : K → K → Bool) (hasher : K → Nat) (key : K) (value : V)
    (hrefl : keq key key = true) (t : List (K × V))
    (h : match_count keq hasher (hash_one hasher key) key t ≤ 1) :
    match_count keq hasher (hash_one hasher key) key
      (table_upsert keq hasher (hash_one hasher key) key value t).2 ≤ 1 := by
  induction t with
  | nil => simp [table_upsert, match_count, List.filter_cons, hrefl]
  | cons e es ih =>
    by_cases hc : (hash_one hasher e.1 == hash_one hasher key && keq e.1 key) = true
    · have hes : match_count keq hasher (hash_one hasher key) key es = 0 := by
        simp [match_count, List.filter_cons, hc] at h
        simpa [match_count] using h
      simp [table_upsert, match_count, List.filter_cons, hc, hrefl]
      simpa [match_count] using hes
    · have hes : match_count keq hasher (hash_one hasher key) key es ≤ 1 := by
        simpa [match_count, List.filter_cons, hc] using h
      simp only [table_upsert, hc, if_false, Bool.false_eq_true]
      simpa [match_count, List.filter_cons, hc] using ih hes

theorem table_find_remove_self (keq : K → K → Bool) (hasher : K → Nat) (hash : Nat) (key : K)
    (t : List (K × V)) (h : match_count keq hasher hash key t ≤ 1) :
    table_find keq hasher hash key (table_remove keq hasher hash key t).2 = none := by
  induction t with
  | nil => rfl
  | cons e es ih =>
    by_cases hc : (hash_one hasher e.1 == hash && keq e.1 key) = true
    · have hes : match_count keq hasher hash key es = 0 := by
        simp [match_count, List.filter_cons, hc] at h
        simpa [match_count] using h
      simp only [table_remove, hc, if_true]
      exact table_find_eq_none_of_match_count_zero keq hasher hash key es hes
    · have hes : match_count keq hasher hash key es ≤ 1 := by
        simpa [match_count, List.filter_cons, hc] using h
      simp only [table_remove, table_find, hc, if_false, Bool.false_eq_true]
      exact ih hes

theorem shardAt_mk_set (shards : List (List (K × V))) (len : Nat) (i : Nat)
    (t : List (K × V)) (hi : i < shards.length) :
    (ShardMap.mk (shards.set i t) len).shardAt i = t := by
  unfold ShardMap.shardAt
  rw [List.get?_set_eq_of_lt _ hi]
  rfl

theorem get_insert_self (keq : K → K → Bool) (hasher : K → Nat) (m : ShardMap K V)
    (key : K) (value : V) (hrefl : keq key key = true)
    (hi : shard_idx m.shards.length (hash_one hasher key) < m.shards.length) :
    ShardMap.get keq hasher (ShardMap.insert keq hasher m key value).2 key
      = some (key, value) := by
  simp only [ShardMap.get, ShardMap.insert, ShardMap.route, ShardMap.num_shards,
    List.length_set]
  rw [shardAt_mk_set _ _ _ _ hi]
  exact table_find_upsert_self keq hasher key value hrefl _

/-- C10: when `insert` is called with a key equal (under the key type's
own equality) to an already-present entry's key, the stored key object is
replaced by the newly supplied key along with the value: the occupied
entry is removed and a fresh `(key, value)` pair is inserted, so a later
lookup observes the new key object, not the original one. -/
theorem insert_replaces_key (K V : Type) (keq : K → K → Bool) (hasher : K → Nat)
    (m : ShardMap K V) (key prevKey : K) (value prevValue : V)
    (hrefl : keq key key = true)
    (hocc : ShardMap.get keq hasher m key = some (prevKey, prevValue)) :
    ShardMap.get keq hasher (ShardMap.insert keq hasher m key value).2 key
      = some (key, value) := by
  have hi : shard_idx m.shards.length (hash_one hasher key) < m.shards.length := by
    by_contra hcon
    have hempty : m.shardAt (shard_idx m.shards.length (hash_one hasher key)) = [] := by
      unfold ShardMap.shardAt
      rw [List.get?_eq_none.mpr (by omega)]
      rfl
    simp only [ShardMap.get, ShardMap.route, ShardMap.num_shards] at hocc
    simp only [hempty] at hocc
    exact absurd hocc (by simp [table_find])
  exact get_insert_self keq hasher m key value hrefl hi

/-- Witness for C10: the map stores the entry `((1, 0), 10)` under a key
equality and hasher that only inspect the first pair component; inserting
key `(1, 7)` (equal to `(1, 0)` under that equality, but a different
object) with value 99 leaves the entry `((1, 7), 99)` — the stored key
object was replaced. -/
theorem insert_replaces_key_witness :
    ShardMap.get pairEq pairHash (ShardMap.insert pairEq pairHash demoPairMap (1, 7) 99).2 (1, 7)
      = some ((1, 7), 99) :=
  insert_replaces_key (Nat × Nat) Nat pairEq pairHash demoPairMap (1, 7) (1, 0) 99 10
    (by decide) (by decide)

/-- C6: for all keys and values (under a reflexive key equality, in a map
whose routed shard holds at most one entry for the key, as every map
reachable from a constructor does): `insert(k, v)` followed by `get(k)`
yields the pair with value `v`; a following `remove(k)` returns `some v`;
a subsequent `get(k)` returns `none`. -/
theorem round_trip (K V : Type) (keq : K → K → Bool) (hasher : K → Nat)
    (m : ShardMap K V) (key : K) (value : V)
    (hn : 0 < m.num_shards) (hN : m.num_shards < U64)
    (hrefl : keq key key = true)
    (huniq : match_count keq hasher (hash_one hasher key) key
        (m.shardAt (shard_idx m.num_shards (hash_one hasher key))) ≤ 1) :
    ShardMap.get keq hasher (ShardMap.insert keq hasher m key value).2 key
        = some (key, value)
    ∧ (ShardMap.remove keq hasher (ShardMap.insert keq hasher m key value).2 key).1
        = some value
    ∧ ShardMap.get keq hasher
        (ShardMap.remove keq hasher (ShardMap.insert keq hasher m key value).2 key).2 key
      = none := by
  have hi : shard_idx m.shards.length (hash_one hasher key) < m.shards.length :=
    shard_idx_lt _ _ hn hN
  have h1 : ShardMap.get keq hasher (ShardMap.insert keq hasher m key value).2 key
      = some (key, value) := get_insert_self keq hasher m key value hrefl hi
  have hfind1 : table_find keq hasher
      (ShardMap.route hasher (ShardMap.insert keq hasher m key value).2 key).2 key
      ((ShardMap.insert keq hasher m key value).2.shardAt
        (ShardMap.route hasher (ShardMap.insert keq hasher m key value).2 key).1)
      = some (key, value) := h1
  have h2 : (ShardMap.remove keq hasher (ShardMap.insert keq hasher m key value).2 key).1
      = some value := by
    simp only [ShardMap.remove]
    rw [table_remove_fst, hfind1]
    rfl
  refine ⟨h1, h2, ?_⟩
  have hi1 : shard_idx (ShardMap.insert keq hasher m key value).2.shards.length
      (hash_one hasher key) < (ShardMap.insert keq hasher m key value).2.shards.length := by
    simp only [ShardMap.insert, List.length_set]
    exact hi
  have huniq1 : match_count keq hasher (hash_one hasher key) key
      ((ShardMap.insert keq hasher m key value).2.shardAt
        (shard_idx (ShardMap.insert keq hasher m key value).2.shards.length
          (hash_one hasher key))) ≤ 1 := by
    simp only [ShardMap.insert, ShardMap.num_shards, List.length_set, ShardMap.route]
    rw [shardAt_mk_set _ _ _ _ hi]
    exact match_count_upsert_le_one keq hasher key value hrefl _ huniq
  have hfind2 : table_find keq hasher (hash_one hasher key) key
      ((ShardMap.insert keq hasher m key value).2.shardAt
        (shard_idx (ShardMap.insert keq hasher m key value).2.shards.length
          (hash_one hasher key))) = some (key, value) := h1
  simp only [ShardMap.remove, ShardMap.route, ShardMap.num_shards]
  rw [table_remove_fst, hfind2]
  rw [if_pos (by simp)]
  simp only [ShardMap.get, ShardMap.route, ShardMap.num_shards, List.length_set]
  rw [shardAt_mk_set _ _ _ _ hi1]
  exact table_find_remove_self keq hasher _ key _ huniq1

/-- Witness for C6: inserting `(3, 5)` into a fresh 4-shard map, reading
it back, removing it and missing on the final read. -/
theorem round_trip_witness :
    ShardMap.get natEq natHash
        (ShardMap.insert natEq natHash (ShardMap.with_shards_and_hasher Nat Nat 4) 3 5).2 3
        = some (3, 5)
    ∧ (ShardMap.remove natEq natHash
        (ShardMap.insert natEq natHash (ShardMap.with_shards_and_hasher Nat Nat 4) 3 5).2 3).1
        = some 5
    ∧ ShardMap.get natEq natHash
        (ShardMap.remove natEq natHash
          (ShardMap.insert natEq natHash (ShardMap.with_shards_and_hasher Nat Nat 4) 3 5).2 3).2 3
      = none :=
  round_trip Nat Nat natEq natHash (ShardMap.with_shards_and_hasher Nat Nat 4) 3 5
    (by decide) (by decide) (by decide) (by decide)

/-- C1 (code bug at the counter): after `clear()` every previously
inserted key misses and `clear()` on an empty map is a no-op, but `len()`
does not return 0: `ShardMap::clear` acquires each shard's write lock and
clears its table without ever resetting the atomic `length` counter, so
clearing the one-entry map leaves `len()` at 1. -/
theorem clear_leaves_stale_length :
    ShardMap.get natEq natHash (ShardMap.clear demoMap) 0 = none
    ∧ ShardMap.clear (ShardMap.with_shards_and_hasher Nat Nat 1)
        = ShardMap.with_shards_and_hasher Nat Nat 1
    ∧ ShardMap.len demoMap = 1
    ∧ ShardMap.len (ShardMap.clear demoMap) = 1 := by decide

theorem run_shard_count_calls_cached (v : Nat) (ps : List (Option Nat)) :
    run_shard_count_calls (some v) ps = (List.replicate ps.length v, some v) := by
  induction ps with
  | nil => rfl
  | cons p ps ih => simp [run_shard_count_calls, shard_count_call, ih, List.replicate_succ]

/-- C8: the default shard count is `nextPowerOfTwo(availableParallelism * 4)`
(with parallelism defaulting to 1 when unavailable); it is computed by the
first call only, stored in the process-wide `OnceLock`, and every
subsequent call of the process returns the identical cached value, no
matter what parallelism those later calls would observe. -/
theorem shard_count_computed_once (p : Option Nat) (ps : List (Option Nat)) :
    (run_shard_count_calls none (p :: ps)).1
        = List.replicate (ps.length + 1) (next_power_of_two (p.getD 1 * 4))
    ∧ (run_shard_count_calls none (p :: ps)).2
        = some (next_power_of_two (p.getD 1 * 4)) := by
  simp [run_shard_count_calls, shard_count_call, calculate_shard_count,
    run_shard_count_calls_cached, List.replicate_succ]

end Whirlwind
